import Mathlib

/-!
Verification development for the plausible-deniability phrasing detector
(`detect_pd.py`).  Text is embedded as `List Char` (Python string indices are
code-point indices).  Scores are embedded as `ℚ` (Python floats; the rational
model is exact where the program's arithmetic is decimal).  Compiled regular
expressions, which come from the external `re` library, are embedded as opaque
boolean matchers, except for the fixed sentence-boundary regex
`(?<=[.!?])\s+(?=[A-Z0-9""(\[])`, which is implemented concretely below.
-/

namespace Polis

attribute [local semireducible] Rat.add Rat.mul Rat.inv Rat.sub Rat.ofScientific

/-- Whitespace, as recognised by Python's `str.strip` / `\s` (the common set:
ASCII whitespace plus the usual Unicode space characters). -/
def pySpace (c : Char) : Bool :=
  c = ' ' || c = '\t' || c = '\n' || c = '\r' || c = '\x0b' || c = '\x0c' ||
  c = '\x1c' || c = '\x1d' || c = '\x1e' || c = '\x1f' ||
  c = '\x85' || c = '\xa0' ||
  (c.val ≥ 0x2000 && c.val ≤ 0x200a) ||
  c.val = 0x2028 || c.val = 0x2029 || c.val = 0x202f || c.val = 0x205f ||
  c.val = 0x3000 || c.val = 0x1680

/-- Sentence-ending punctuation: the lookbehind class `[.!?]` of the
sentence-boundary regex in `compile_cfg`. -/
def sentPunct (c : Char) : Bool :=
  c = '.' || c = '!' || c = '?'

/-- The lookahead class `[A-Z0-9""(\[]` of the sentence-boundary regex in
`compile_cfg` (the two quote characters in the source are both the ASCII
double quote). -/
def splitOpener (c : Char) : Bool :=
  ('A' ≤ c && c ≤ 'Z') || ('0' ≤ c && c ≤ '9') || c = '"' || c = '(' || c = '['

/-- Python `str.strip()`: drop leading and trailing whitespace. -/
def pyStrip (l : List Char) : List Char :=
  ((l.dropWhile pySpace).reverse.dropWhile pySpace).reverse

/-- Python `str.lower()` (ASCII model, which is what the detector's inputs
exercise). -/
def pyLower (l : List Char) : List Char :=
  l.map Char.toLower

/-- One pass of `re.split` with the compiled sentence-boundary pattern
`(?<=[.!?])\s+(?=[A-Z0-9""(\[])`: a separator is a maximal nonempty
whitespace run immediately preceded by `.`/`!`/`?` and immediately followed
by a character of the opener class.  `prevPunct` records whether the
character before the current position is sentence-ending punctuation
(the lookbehind); `acc` is the current fragment, reversed. -/
def splitGo : (fuel : Nat) → (prevPunct : Bool) → (acc : List Char) →
    (t : List Char) → List (List Char)
  | _, _, acc, [] => [acc.reverse]
  | 0, _, acc, t => [acc.reverse ++ t]
  | fuel + 1, prevPunct, acc, c :: rest =>
    if pySpace c && prevPunct then
      match rest.dropWhile pySpace with
      | [] => (acc.reverse ++ c :: rest.takeWhile pySpace) :: []
      | d :: ds =>
        if splitOpener d then
          acc.reverse :: splitGo fuel false [] (d :: ds)
        else
          splitGo fuel false ((rest.takeWhile pySpace).reverse ++ c :: acc) (d :: ds)
    else
      splitGo fuel (sentPunct c) (c :: acc) rest

/-- `cfg["_sent_split"].split(t)`.  The fuel `t.length` bounds the number of
scanning steps: every recursive call of `splitGo` both consumes one unit of
fuel and strictly shortens the remaining text, so the zero-fuel branch is
never reached from here. -/
def sentSplit (t : List Char) : List (List Char) :=
  splitGo t.length false [] t

/-- The surviving fragments: each split part is stripped and empty parts are
discarded (`s = part.strip(); if not s: continue`). -/
def sentFragments (t : List Char) : List (List Char) :=
  ((sentSplit t).map pyStrip).filter (fun s => !s.isEmpty)

/-- Fuel-driven scan underlying `str.find`: try positions `i`, `i+1`, … -/
def strFindAux (text s : List Char) : Nat → Nat → Option Nat
  | 0, _ => none
  | fuel + 1, i =>
    if text.length < i then none
    else if s.isPrefixOf (text.drop i) then some i
    else strFindAux text s fuel (i + 1)

/-- Python `text.find(s, start)`: the least index `i ≥ start` at which `s`
occurs in `text`, or `none` (Python's `-1`). -/
def strFind (text s : List Char) (start : Nat) : Option Nat :=
  strFindAux text s (text.length + 1 - start) start

/-- A segmented sentence: `(idx, idx + len(s), s)` in `detect_sentences`.
`stop` is the exclusive end offset. -/
structure Sent where
  start : Nat
  stop : Nat
  text : List Char
deriving DecidableEq

/-- The offset-recovery loop of `detect_sentences` (lines 40–48): for each
fragment, search the original text forward from the cursor; on a miss
(`idx == -1`, the defensive fallback) use the cursor itself; then advance
the cursor past the fragment. -/
def recoverOffsets (text : List Char) : List (List Char) → Nat → List Sent
  | [], _ => []
  | s :: rest, cursor =>
    match strFind text s cursor with
    | some idx => ⟨idx, idx + s.length, s⟩ :: recoverOffsets text rest (idx + s.length)
    | none => ⟨cursor, cursor + s.length, s⟩ :: recoverOffsets text rest (cursor + s.length)

/-- Sentence segmentation in `detect_sentences`: strip the whole text (early
return on empty), split into fragments, recover offsets into the original
text starting from cursor 0. -/
def segment (text : List Char) : List Sent :=
  let t := pyStrip text
  if t.isEmpty then [] else recoverOffsets text (sentFragments t) 0

/-- Python `text[a:b]`. -/
def extract (u : List Char) (a b : Nat) : List Char :=
  (u.drop a).take (b - a)

/-- `{"id": p["id"], "label": p["label"]}` recorded for a matching pattern. -/
structure MatchedPattern where
  id : String
  label : String
deriving DecidableEq

/-- A compiled pattern entry of `cfg["_compiled_patterns"]`.  `search` models
`p["compiled"].search` — the external `re` engine's case-insensitive search,
embedded as an opaque boolean matcher applied to the text the code hands it
(the lowercased sentence). -/
structure Pattern where
  id : String
  label : String
  search : List Char → Bool
  weight : ℚ

/-- The effective values of `cfg["boosts"]` (the code reads each key with
`.get` and a default: `claiminess` 0, `rhetorical_question` 0,
`max_score` 1). -/
structure Boosts where
  claiminess : ℚ
  rhetorical_question : ℚ
  max_score : ℚ

/-- The compiled configuration as used by `detect_sentences`: the compiled
pattern list, the optional claimy-words regex (`search` over the original
sentence), the optional rhetorical-question regex (anchored at the sentence
start, modelled opaquely), and the boosts. -/
structure Cfg where
  patterns : List Pattern
  claimy : Option (List Char → Bool)
  rhetQ : Option (List Char → Bool)
  boosts : Boosts

/-- The inner pattern loop of `detect_sentences` (lines 54–57): a left fold
over the compiled patterns accumulating `matched` and the running score. -/
def patternPass (cfg : Cfg) (sentLc : List Char) : List MatchedPattern × ℚ :=
  cfg.patterns.foldl
    (fun acc p =>
      if p.search sentLc then (acc.1 ++ [⟨p.id, p.label⟩], acc.2 + p.weight)
      else acc)
    ([], 0)

/-- Python `round(q, 2)` modelled over ℚ: round to the nearest multiple of
1/100 (ties upward; no claim in this development exercises a tie). -/
def round2 (q : ℚ) : ℚ :=
  (⌊q * 100 + 1 / 2⌋ : ℚ) / 100

/-- `sorted({m["label"] for m in matched})`: the deduplicated labels in
lexicographic order. -/
def sortedLabels (matched : List MatchedPattern) : List String :=
  List.insertionSort (fun a b : String => a ≤ b) (matched.map (fun m => m.label)).dedup

/-- One output record of `detect_sentences`. -/
structure ScoredSentence where
  start : Nat
  stop : Nat
  sentence : List Char
  score : ℚ
  labels : List String
  matched_patterns : List MatchedPattern
deriving DecidableEq

/-- The per-sentence body of `detect_sentences` (lines 50–75): run the
pattern pass on the lowercased sentence, apply the claimy and
rhetorical-question boosts, clamp by `max_score`, and emit the record when
`matched` is non-empty and the clamped (unrounded) score reaches the
threshold; the emitted `score` field is the rounded value. -/
def scoreOne (cfg : Cfg) (threshold : ℚ) (x : Sent) : Option ScoredSentence :=
  let mp := patternPass cfg (pyLower x.text)
  let s1 : ℚ :=
    match cfg.claimy with
    | some f => if f x.text then mp.2 + cfg.boosts.claiminess else mp.2
    | none => mp.2
  let s2 : ℚ :=
    match cfg.rhetQ with
    | some f =>
      if (pyStrip x.text).getLast? = some '?' && f x.text then
        s1 + cfg.boosts.rhetorical_question
      else s1
    | none => s1
  let score := min cfg.boosts.max_score s2
  if mp.1 ≠ [] ∧ threshold ≤ score then
    some ⟨x.start, x.stop, x.text, round2 score, sortedLabels mp.1, mp.1⟩
  else none

/-- `detect_sentences(text, cfg, threshold)`: segment, then score each
sentence, keeping the qualifying records in order. -/
def detect_sentences (text : List Char) (cfg : Cfg) (threshold : ℚ) :
    List ScoredSentence :=
  (segment text).filterMap (scoreOne cfg threshold)

/-! Declarative recomputations of the scorer's intermediate values, used to
state the claims (they are not used by `detect_sentences` itself). -/

/-- The matched patterns of a sentence: one `MatchedPattern` per pattern
whose regex finds a match in the lowercased sentence, in declaration
order. -/
def matchedOf (cfg : Cfg) (sent : List Char) : List MatchedPattern :=
  (cfg.patterns.filter (fun p => p.search (pyLower sent))).map
    (fun p => ⟨p.id, p.label⟩)

/-- The weight sum of the matched patterns. -/
def weightSum (cfg : Cfg) (sent : List Char) : ℚ :=
  ((cfg.patterns.filter (fun p => p.search (pyLower sent))).map
      (fun p => p.weight)).sum

/-- The raw (pre-clamp) score of a sentence: the sum of the matching
patterns' weights, plus the claiminess boost when the claimy regex is
configured and matches, plus the rhetorical-question boost when the
stripped sentence ends in `?` and the rhetorical regex is configured and
matches. -/
def rawScore (cfg : Cfg) (sent : List Char) : ℚ :=
  let s1 : ℚ :=
    match cfg.claimy with
    | some f => if f sent then weightSum cfg sent + cfg.boosts.claiminess
        else weightSum cfg sent
    | none => weightSum cfg sent
  match cfg.rhetQ with
  | some f =>
    if (pyStrip sent).getLast? = some '?' && f sent then
      s1 + cfg.boosts.rhetorical_question
    else s1
  | none => s1

/-- The clamped score compared against the threshold. -/
def clampedScore (cfg : Cfg) (sent : List Char) : ℚ :=
  min cfg.boosts.max_score (rawScore cfg sent)

/-- The record `detect_sentences` emits for a qualifying sentence, rebuilt
from the declarative pieces. -/
def mkRecord (cfg : Cfg) (x : Sent) : ScoredSentence :=
  ⟨x.start, x.stop, x.text, round2 (clampedScore cfg x.text),
   sortedLabels (matchedOf cfg x.text), matchedOf cfg x.text⟩

/-- `OccursFrom text c frags`: the fragments occur in `text`, in order,
pairwise non-overlapping, at positions at or after `c`. -/
def OccursFrom (text : List Char) : Nat → List (List Char) → Prop
  | _, [] => True
  | c, s :: rest =>
    ∃ p, c ≤ p ∧ p + s.length ≤ text.length ∧
      extract text p (p + s.length) = s ∧ OccursFrom text (p + s.length) rest

/-- Case-sensitive substring search, the semantics of `re.search` for a
regex that is a literal string (used to instantiate the opaque matchers at
concrete inputs). -/
def containsSub (hay needle : List Char) : Bool :=
  (List.range (hay.length + 1)).any (fun i => needle.isPrefixOf (hay.drop i))

/-! ### Concrete configurations used by counterexamples and witnesses -/

/-- Scenario A's compiled configuration: one pattern `p1`/`HEDGE` whose regex
is the literal `i think`, weight 0.6; no claimy words, no rhetorical stems;
boosts 0, `max_score` 1. -/
def cfgA : Cfg :=
  { patterns := [⟨"p1", "HEDGE", fun s => containsSub s "i think".toList, 6/10⟩]
    claimy := none
    rhetQ := none
    boosts := ⟨0, 0, 1⟩ }

/-- Scenario A's input text. -/
def textA : List Char := "I think this works. It definitely does.".toList

/-- A configuration with a single pattern (literal `a`) of weight 0.496. -/
def cfgHalf : Cfg :=
  { patterns := [⟨"q1", "Q", fun s => containsSub s "a".toList, 62/125⟩]
    claimy := none
    rhetQ := none
    boosts := ⟨0, 0, 1⟩ }

/-- A configuration with a single pattern (literal `a`) of negative weight
-0.5, which the scorer honors as configured. -/
def cfgNeg : Cfg :=
  { patterns := [⟨"n1", "NEG", fun s => containsSub s "a".toList, -(1/2)⟩]
    claimy := none
    rhetQ := none
    boosts := ⟨0, 0, 1⟩ }

/-- A configuration whose only pattern never matches but whose
rhetorical-question boost is large (Scenario D). -/
def cfgBoostOnly : Cfg :=
  { patterns := [⟨"z1", "Z", fun _ => false, 1⟩]
    claimy := none
    rhetQ := some (fun s => containsSub s "why".toList)
    boosts := ⟨0, 1, 1⟩ }

/-! ### JSONL mode (`main`, lines 157–180, and `iter_jsonl`) -/

/-- A JSON value as produced by `json.loads` (numbers are modelled as
integers; no claim exercises fractional numeric fields). -/
inductive JVal where
  | jnull : JVal
  | jbool : Bool → JVal
  | jint : Int → JVal
  | jstr : String → JVal
  | jarr : List JVal → JVal
  | jobj : List (String × JVal) → JVal

/-- A parsed JSONL record: the dictionary `json.loads` returns. -/
abbrev JObj := List (String × JVal)

/-- `obj.get(k)`: the value stored under key `k`, if present. -/
def jget (obj : JObj) (k : String) : Option JVal :=
  (obj.find? (fun kv => kv.1 = k)).map (fun kv => kv.2)

mutual

/-- Python `str(v)` for a value loaded from JSON: strings are returned
as-is, numbers in decimal, `True`/`False`/`None` for the constants, and
the Python `repr`-style rendering for lists and dicts (string quoting is
modelled without escape processing). -/
def pyStr : JVal → String
  | .jnull => "None"
  | .jbool true => "True"
  | .jbool false => "False"
  | .jint n => toString n
  | .jstr s => s
  | .jarr xs => "[" ++ pyStrList xs ++ "]"
  | .jobj kvs => "\x7b" ++ pyStrObj kvs ++ "\x7d"

/-- Python `repr(v)` for a value loaded from JSON (as used inside
containers). -/
def pyRepr : JVal → String
  | .jnull => "None"
  | .jbool true => "True"
  | .jbool false => "False"
  | .jint n => toString n
  | .jstr s => "'" ++ s ++ "'"
  | .jarr xs => "[" ++ pyStrList xs ++ "]"
  | .jobj kvs => "\x7b" ++ pyStrObj kvs ++ "\x7d"

/-- Comma-separated `repr`s of a list's elements. -/
def pyStrList : List JVal → String
  | [] => ""
  | [x] => pyRepr x
  | x :: xs => pyRepr x ++ ", " ++ pyStrList xs

/-- Comma-separated `repr(k): repr(v)` entries of a dict. -/
def pyStrObj : List (String × JVal) → String
  | [] => ""
  | [kv] => "'" ++ kv.1 ++ "': " ++ pyRepr kv.2
  | kv :: kvs => "'" ++ kv.1 ++ "': " ++ pyRepr kv.2 ++ ", " ++ pyStrObj kvs

end

/-- Python `str.strip()` on a `String`. -/
def stripS (s : String) : String :=
  ⟨pyStrip s.toList⟩

/-- One line of JSONL output, as assembled in `main` (lines 170–179). -/
structure OutRec where
  doc_id : String
  sentence_id : Nat
  record : ScoredSentence
  threshold : ℚ
  source : String
  jsonl_line : Nat
deriving DecidableEq

/-- The per-document emission loop (`for rec in flagged`, lines 167–180):
number the flagged sentences from 1 and attach `doc_id` and the meta
fields. -/
def emitDoc (docId : String) (source : String) (θ : ℚ) (lineNo : Nat)
    (flagged : List ScoredSentence) : List OutRec :=
  flagged.enum.map (fun ir => ⟨docId, ir.1 + 1, ir.2, θ, source, lineNo⟩)

/-- The JSONL branch of `main` (lines 157–180) together with `iter_jsonl`:
iterate the input lines; strip each line and skip blank ones without
counting them; parse the rest (`parse` stands for the external
`json.loads`, `none` for a `JSONDecodeError`, which propagates); count the
parsed record; fetch the text field with default `""`; skip records whose
text is not a string or strips to empty; derive `doc_id` from the id field
(via `str`) or the `base#lineNo` fallback; run the detector and emit. -/
def processJsonl (parse : String → Option JObj) (cfg : Cfg) (θ : ℚ)
    (tf idf base source : String) : Nat → List String → Except Unit (List OutRec)
  | _, [] => .ok []
  | n, line :: rest =>
    if stripS line = "" then processJsonl parse cfg θ tf idf base source n rest
    else
      match parse (stripS line) with
      | none => .error ()
      | some obj =>
        match (jget obj tf).getD (.jstr "") with
        | .jstr s =>
          if stripS s = "" then processJsonl parse cfg θ tf idf base source (n + 1) rest
          else
            let docId :=
              match jget obj idf with
              | some v => pyStr v
              | none => base ++ "#" ++ toString (n + 1)
            match processJsonl parse cfg θ tf idf base source (n + 1) rest with
            | .ok rs =>
              .ok (emitDoc docId source θ (n + 1) (detect_sentences s.toList cfg θ) ++ rs)
            | .error e => .error e
        | _ => processJsonl parse cfg θ tf idf base source (n + 1) rest

/-- The records a single parsed JSONL record contributes, with `lineNo` the
value of the line counter after counting it (stated declaratively for the
claims about `doc_id` and `meta.jsonl_line`). -/
def recordOutput (cfg : Cfg) (θ : ℚ) (tf idf base source : String)
    (lineNo : Nat) (obj : JObj) : List OutRec :=
  match (jget obj tf).getD (.jstr "") with
  | .jstr s =>
    if stripS s = "" then []
    else
      emitDoc
        (match jget obj idf with
         | some v => pyStr v
         | none => base ++ "#" ++ toString lineNo)
        source θ lineNo (detect_sentences s.toList cfg θ)
  | _ => []

/-! ### Startup of `main` (lines 119–125) -/

/-- What the process does at startup: exit with a code, or proceed to read
the input. -/
inductive StartupResult where
  | exited : Nat → StartupResult
  | proceed : StartupResult
deriving DecidableEq

/-- Python truthiness of a JSON-loaded value (`if cfg.get(k)`). -/
def jTruthy : JVal → Bool
  | .jnull => false
  | .jbool b => b
  | .jint n => n ≠ 0
  | .jstr s => s ≠ ""
  | .jarr xs => !xs.isEmpty
  | .jobj kvs => !kvs.isEmpty

/-- Python iteration over a JSON-loaded value: a list yields its elements, a
string its characters, a dict its keys; numbers, booleans and `None` are
not iterable (`TypeError`). -/
def jIter : JVal → Option (List JVal)
  | .jarr xs => some xs
  | .jstr s => some (s.toList.map (fun c => .jstr (String.singleton c)))
  | .jobj kvs => some (kvs.map (fun kv => .jstr kv.1))
  | _ => none

/-- `"|".join(v)` for the claimy-words / rhetorical-stems lists: every
iterated element must be a string (`TypeError` otherwise). -/
def joinBar (v : JVal) : Option String :=
  match jIter v with
  | none => none
  | some es =>
    if es.all (fun e => match e with | .jstr _ => true | _ => false) then
      some (String.intercalate "|"
        (es.map (fun e => match e with | .jstr s => s | _ => "")))
    else none

/-- One entry of `cfg["patterns"]` compiles iff it is a dict whose `rx` key
holds a string that the regex engine accepts (`{**p}` requires a mapping;
`p["rx"]` raises `KeyError` when absent; `re.compile` raises on a non-string
or invalid pattern).  `rxOk` stands for the external regex compiler. -/
def patOk (rxOk : String → Bool) : JVal → Bool
  | .jobj kvs =>
    match jget kvs "rx" with
    | some (.jstr r) => rxOk r
    | _ => false
  | _ => false

/-- An optional word-list key (`claimy_words` / `rhet_question_stems`)
compiles iff it is absent or falsy, or joins into a pattern the regex
engine accepts; `wrap` builds the final pattern source from the joined
alternation (identity for claimy words, the `^(?:…)\b` template for the
rhetorical stems). -/
def wordListOk (rxOk : String → Bool) (wrap : String → String) (kvs : JObj)
    (key : String) : Bool :=
  match jget kvs key with
  | none => true
  | some v =>
    if jTruthy v then
      match joinBar v with
      | some j => rxOk (wrap j)
      | none => false
    else true

/-- `compile_cfg` (lines 20–28) succeeds on the loaded document `v` iff the
document is a dict with a `patterns` key whose value iterates into entries
that all compile, and the two optional word lists compile. -/
def compileOk (rxOk : String → Bool) (v : JVal) : Bool :=
  match v with
  | .jobj kvs =>
    match jget kvs "patterns" with
    | none => false
    | some pv =>
      match jIter pv with
      | none => false
      | some ps =>
        ps.all (patOk rxOk) &&
        wordListOk rxOk (fun j => j) kvs "claimy_words" &&
        wordListOk rxOk (fun j => "^(?:" ++ j ++ ")\\b") kvs "rhet_question_stems"
  | _ => false

/-- The startup phase of `main` (lines 119–125, all of which run before the
input is first read at line 132): `src = none` models a missing patterns
file (`sys.exit(2)`); `src = some none` a file whose contents `json.load`
rejects; `src = some (some v)` a successfully parsed document `v`.  An
uncaught Python exception (from `json.load` or `compile_cfg`) terminates
the process with exit code 1. -/
def mainStartup (src : Option (Option JVal)) (rxOk : String → Bool) : StartupResult :=
  match src with
  | none => .exited 2
  | some none => .exited 1
  | some (some v) => if compileOk rxOk v then .proceed else .exited 1

/-- `main` with the startup phase made explicit: only when startup proceeds
is the input read and processed (`process` stands for the rest of the
program applied to the input). -/
def mainModel (src : Option (Option JVal)) (rxOk : String → Bool)
    (input : List String) (process : List String → Option (List OutRec)) :
    StartupResult × Option (List OutRec) :=
  match mainStartup src rxOk with
  | .exited c => (.exited c, none)
  | .proceed => (.proceed, process input)

/-- A concrete JSONL input line whose record has only a `text` field. -/
def lineJ : String := "\x7b\"text\": \"I think this works.\"\x7d"

/-- The record `json.loads` yields for `lineJ`. -/
def objJ : JObj := [("text", JVal.jstr "I think this works.")]

/-- A concrete instantiation of the external `json.loads` for inputs built
from `lineJ`. -/
def parseJ : String → Option JObj :=
  fun s => if s = lineJ then some objJ else none

/-- A record whose `text` field is present but holds a number, not a
string. -/
def objN : JObj := [("text", JVal.jint 5)]

/-- A concrete parser mapping the line `n` to the non-string-text record
`objN` and `lineJ` to `objJ`. -/
def parseN : String → Option JObj :=
  fun s => if s = "n" then some objN else if s = lineJ then some objJ else none

/-! ## Theorems -/

theorem patternPass_foldl (l : List Char) (ps : List Pattern) :
    ∀ (ms : List MatchedPattern) (q : ℚ),
      ps.foldl
        (fun acc p =>
          if p.search l then (acc.1 ++ [⟨p.id, p.label⟩], acc.2 + p.weight)
          else acc)
        (ms, q) =
      (ms ++ (ps.filter (fun p => p.search l)).map
          (fun p => (⟨p.id, p.label⟩ : MatchedPattern)),
       q + ((ps.filter (fun p => p.search l)).map (fun p => p.weight)).sum) := by
  induction ps with
  | nil => intro ms q; simp
  | cons p ps ih =>
    intro ms q
    by_cases h : p.search l
    · simp only [List.foldl_cons, h, if_pos, List.filter_cons_of_pos,
        List.map_cons, List.sum_cons, ih]
      simp [Prod.ext_iff, List.append_assoc, List.singleton_append, add_assoc]
    · simp only [List.foldl_cons, h, Bool.false_eq_true, if_false, ih]
      simp [List.filter_cons, h]

theorem patternPass_eq (cfg : Cfg) (l : List Char) :
    patternPass cfg l =
      ((cfg.patterns.filter (fun p => p.search l)).map
          (fun p => (⟨p.id, p.label⟩ : MatchedPattern)),
       ((cfg.patterns.filter (fun p => p.search l)).map
          (fun p => p.weight)).sum) := by
  have := patternPass_foldl l cfg.patterns [] 0
  simpa [patternPass] using this

theorem scoreOne_eq (cfg : Cfg) (θ : ℚ) (x : Sent) :
    scoreOne cfg θ x =
      if matchedOf cfg x.text ≠ [] ∧ θ ≤ clampedScore cfg x.text then
        some (mkRecord cfg x)
      else none := by
  simp only [scoreOne, patternPass_eq, mkRecord, clampedScore, rawScore,
    matchedOf, weightSum]

theorem mem_detect_iff (text : List Char) (cfg : Cfg) (θ : ℚ) (r : ScoredSentence) :
    r ∈ detect_sentences text cfg θ ↔
      ∃ x ∈ segment text,
        matchedOf cfg x.text ≠ [] ∧ θ ≤ clampedScore cfg x.text ∧
        r = mkRecord cfg x := by
  simp only [detect_sentences, List.mem_filterMap, scoreOne_eq]
  constructor
  · rintro ⟨x, hx, hif⟩
    by_cases hc : matchedOf cfg x.text ≠ [] ∧ θ ≤ clampedScore cfg x.text
    · rw [if_pos hc] at hif
      exact ⟨x, hx, hc.1, hc.2, (Option.some_inj.mp hif).symm⟩
    · rw [if_neg hc] at hif
      exact absurd hif (Option.noConfusion)
  · rintro ⟨x, hx, h1, h2, hr⟩
    exact ⟨x, hx, by rw [if_pos ⟨h1, h2⟩, hr]⟩

theorem round2_mono {a b : ℚ} (h : a ≤ b) : round2 a ≤ round2 b := by
  unfold round2
  have hf : ⌊a * 100 + 1 / 2⌋ ≤ ⌊b * 100 + 1 / 2⌋ :=
    Int.floor_le_floor (by linarith)
  have : ((⌊a * 100 + 1 / 2⌋ : ℤ) : ℚ) ≤ ((⌊b * 100 + 1 / 2⌋ : ℤ) : ℚ) :=
    Int.cast_le.mpr hf
  linarith

theorem round2_nonneg {a : ℚ} (h : 0 ≤ a) : 0 ≤ round2 a := by
  unfold round2
  have : (0 : ℤ) ≤ ⌊a * 100 + 1 / 2⌋ := Int.le_floor.mpr (by push_cast; linarith)
  have : ((0 : ℤ) : ℚ) ≤ ((⌊a * 100 + 1 / 2⌋ : ℤ) : ℚ) := Int.cast_le.mpr this
  push_cast at this
  linarith

theorem rawScore_nonneg (cfg : Cfg) (sent : List Char)
    (hw : ∀ p ∈ cfg.patterns, 0 ≤ p.weight)
    (hc : 0 ≤ cfg.boosts.claiminess)
    (hr : 0 ≤ cfg.boosts.rhetorical_question) :
    0 ≤ rawScore cfg sent := by
  have hsum : 0 ≤ weightSum cfg sent := by
    apply List.sum_nonneg
    intro w hwmem
    rcases List.mem_map.mp hwmem with ⟨p, hp, rfl⟩
    exact hw p (List.mem_of_mem_filter hp)
  have h1 : 0 ≤
      (match cfg.claimy with
       | some f => if f sent then weightSum cfg sent + cfg.boosts.claiminess
           else weightSum cfg sent
       | none => weightSum cfg sent) := by
    cases cfg.claimy with
    | none => exact hsum
    | some f =>
      by_cases hf : f sent
      · simp only [hf, if_pos]; linarith
      · simp only [hf, if_neg, Bool.false_eq_true, if_false]; exact hsum
  unfold rawScore
  cases cfg.rhetQ with
  | none => exact h1
  | some f =>
    by_cases hf : ((pyStrip sent).getLast? = some '?' && f sent : Bool)
    · simp only [hf, if_pos]; linarith
    · simp only [hf, Bool.false_eq_true, if_false]; exact h1

/-! ### Claim C1 -/

/-- Claim C1 as stated is false on the code: under the Scenario A
configuration and input, the single flagged record's span is `(0, 19)` —
the sentence `I think this works.` has 19 characters — not `(0, 20)` as the
claim asserts. -/
theorem C1_counterexample :
    (detect_sentences textA cfgA (1/2)).map (fun r => (r.start, r.stop)) =
        [(0, 19)] ∧
      ((0, 19) : Nat × Nat) ≠ ((0, 20) : Nat × Nat) := by
  constructor
  · decide
  · decide

/-- Claim C1 (corrected): under the Scenario A configuration, detection on
`"I think this works. It definitely does."` produces exactly one flagged
record, with sentence `I think this works.`, span `(0, 19)`, score `0.6`,
and labels `["HEDGE"]`. -/
theorem C1_amended :
    detect_sentences textA cfgA (1/2) =
      [⟨0, 19, "I think this works.".toList, 3/5, ["HEDGE"],
        [⟨"p1", "HEDGE"⟩]⟩] := by
  decide

/-! ### Claim C2 -/

/-- Claim C2 as stated is false on the code: the comparison at line 67 of
`detect_pd.py` uses the unrounded clamped score, not the rounded one.  With
a single matching pattern of weight 0.496 and threshold 0.5, the rounded
score equals the threshold (0.5) and a pattern matched, so the claim
asserts emission — but the code emits nothing because 0.496 < 0.5. -/
theorem C2_counterexample :
    detect_sentences "a.".toList cfgHalf (1/2) = [] ∧
      (segment "a.".toList).map Sent.text = ["a.".toList] ∧
      matchedOf cfgHalf "a.".toList ≠ [] ∧
      (1/2 : ℚ) ≤ round2 (clampedScore cfgHalf "a.".toList) := by
  refine ⟨by decide, by decide, by decide, by decide⟩

/-- Claim C2 (corrected): a record is emitted for a segmented sentence iff
at least one pattern matched and the clamped, **unrounded** score is `≥`
the active threshold (inclusive lower bound); the emitted record's `score`
field is the rounded value. -/
theorem C2_amended (text : List Char) (cfg : Cfg) (θ : ℚ) (r : ScoredSentence) :
    r ∈ detect_sentences text cfg θ ↔
      ∃ x ∈ segment text,
        matchedOf cfg x.text ≠ [] ∧ θ ≤ clampedScore cfg x.text ∧
        r = mkRecord cfg x :=
  mem_detect_iff text cfg θ r

/-! ### Claim C3 -/

/-- Claim C3 as stated is false on the code: the scorer applies no lower
clamp, so a configured negative weight is honored.  With a single matching
pattern of weight -0.5 and threshold -1, the emitted record's score is
-0.5 < 0. -/
theorem C3_counterexample :
    (detect_sentences "a.".toList cfgNeg (-1)).map ScoredSentence.score =
        [-(1/2)] ∧
      ¬ (0 ≤ (-(1/2) : ℚ)) := by
  refine ⟨by decide, by decide⟩

/-- Claim C3 (corrected): every emitted score is at most
`round2 boosts.max_score` (the clamp bounds the pre-rounding score by
`max_score`, and rounding is monotone; `max_score` itself can change under
rounding, so the bound is its rounded value); and when every pattern weight
and both boosts and `max_score` are non-negative — the configuration
contract — every emitted score is also non-negative. -/
theorem C3_amended (text : List Char) (cfg : Cfg) (θ : ℚ) :
    (∀ r ∈ detect_sentences text cfg θ,
        r.score ≤ round2 cfg.boosts.max_score) ∧
      ((∀ p ∈ cfg.patterns, 0 ≤ p.weight) → 0 ≤ cfg.boosts.claiminess →
        0 ≤ cfg.boosts.rhetorical_question → 0 ≤ cfg.boosts.max_score →
        ∀ r ∈ detect_sentences text cfg θ, 0 ≤ r.score) := by
  constructor
  · intro r hr
    rcases (mem_detect_iff text cfg θ r).mp hr with ⟨x, _, _, _, rfl⟩
    exact round2_mono (min_le_left _ _)
  · intro hw hc hrh hm r hr
    rcases (mem_detect_iff text cfg θ r).mp hr with ⟨x, _, _, _, rfl⟩
    exact round2_nonneg (le_min hm (rawScore_nonneg cfg x.text hw hc hrh))

/-! ### Claim C9 -/

/-- Claim C9: the detector is a deterministic function of its inputs — the
embedding is a pure function (the source has no randomness, time or shared
mutable state in the scoring path), so two runs on identical input and
configuration yield identical, identically ordered output. -/
theorem C9_deterministic (text : List Char) (cfg : Cfg) (θ : ℚ) :
    detect_sentences text cfg θ = detect_sentences text cfg θ :=
  rfl

/-! ### Slicing and occurrence lemmas for the segmenter -/

theorem extract_append_shift (w v : List Char) (a b : Nat) :
    extract (w ++ v) (w.length + a) (w.length + b) = extract v a b := by
  unfold extract
  rw [List.drop_append]
  congr 1
  omega

theorem extract_append_right (v w : List Char) (a b : Nat) (hb : b ≤ v.length) :
    extract (v ++ w) a b = extract v a b := by
  unfold extract
  by_cases ha : a ≤ v.length
  · rw [List.drop_append_of_le_length ha,
      List.take_append_of_le_length (by simp; omega)]
  · have h0 : b - a = 0 := by omega
    simp [h0]

theorem extract_eq_of_isPrefixOf {text s : List Char} {i : Nat}
    (h : s.isPrefixOf (text.drop i)) : extract text i (i + s.length) = s := by
  have hp : s <+: text.drop i := List.isPrefixOf_iff_prefix.mp h
  unfold extract
  rw [Nat.add_sub_cancel_left]
  exact (List.prefix_iff_eq_take.mp hp).symm

theorem isPrefixOf_le_length {text s : List Char} {i : Nat}
    (h : s.isPrefixOf (text.drop i)) : i + s.length ≤ text.length ∨ s = [] := by
  have hp : s <+: text.drop i := List.isPrefixOf_iff_prefix.mp h
  have := hp.length_le
  rw [List.length_drop] at this
  by_cases hi : i ≤ text.length
  · left; omega
  · right
    have : text.drop i = [] := List.drop_eq_nil_of_le (by omega)
    rw [this] at hp
    exact List.prefix_nil.mp hp

theorem occursFrom_mono {text : List Char} {c c' : Nat} (h : c' ≤ c) :
    ∀ {l}, OccursFrom text c l → OccursFrom text c' l := by
  intro l hl
  cases l with
  | nil => trivial
  | cons s rest =>
    obtain ⟨p, h1, h2, h3, h4⟩ := hl
    exact ⟨p, le_trans h h1, h2, h3, h4⟩

theorem occursFrom_shift {v : List Char} (w : List Char) :
    ∀ {l : List (List Char)} {c : Nat},
      OccursFrom v c l → OccursFrom (w ++ v) (w.length + c) l := by
  intro l
  induction l with
  | nil => intro c _; trivial
  | cons s rest ih =>
    intro c h
    obtain ⟨p, h1, h2, h3, h4⟩ := h
    refine ⟨w.length + p, by omega, ?_, ?_, ?_⟩
    · simp only [List.length_append]; omega
    · rw [show w.length + p + s.length = w.length + (p + s.length) by omega,
        extract_append_shift]
      exact h3
    · rw [show w.length + p + s.length = w.length + (p + s.length) by omega]
      exact ih h4

theorem occursFrom_append_right {v : List Char} (w : List Char) :
    ∀ {l : List (List Char)} {c : Nat},
      OccursFrom v c l → OccursFrom (v ++ w) c l := by
  intro l
  induction l with
  | nil => intro c _; trivial
  | cons s rest ih =>
    intro c h
    obtain ⟨p, h1, h2, h3, h4⟩ := h
    refine ⟨p, h1, ?_, ?_, ih h4⟩
    · simp only [List.length_append]; omega
    · rw [extract_append_right _ _ _ _ h2]
      exact h3

theorem pyStrip_decomp (v : List Char) :
    v = v.takeWhile pySpace ++ pyStrip v ++
      ((v.dropWhile pySpace).reverse.takeWhile pySpace).reverse := by
  conv_lhs => rw [← List.takeWhile_append_dropWhile (p := pySpace) (l := v)]
  rw [List.append_assoc]
  congr 1
  unfold pyStrip
  conv_lhs =>
    rw [← List.reverse_reverse (v.dropWhile pySpace),
      ← List.takeWhile_append_dropWhile (p := pySpace)
        (l := (v.dropWhile pySpace).reverse)]
  rw [List.reverse_append]

theorem occursAt_of_decomp {u a st b : List Char} (h : u = a ++ st ++ b) :
    a.length + st.length ≤ u.length ∧
      extract u a.length (a.length + st.length) = st := by
  subst h
  constructor
  · simp only [List.length_append]
    omega
  · rw [List.append_assoc]
    have h1 := extract_append_shift a (st ++ b) 0 st.length
    rw [Nat.add_zero] at h1
    rw [h1]
    unfold extract
    simp [List.take_append_of_le_length]

theorem occursAt_strip (v : List Char) :
    ∃ p, p + (pyStrip v).length ≤ v.length ∧
      extract v p (p + (pyStrip v).length) = pyStrip v :=
  ⟨(v.takeWhile pySpace).length,
    occursAt_of_decomp (pyStrip_decomp v)⟩

theorem occursFrom_strip_singleton (u : List Char) :
    OccursFrom u 0 (([u].map pyStrip).filter (fun s => !s.isEmpty)) := by
  simp only [List.map_cons, List.map_nil, List.filter_cons, List.filter_nil]
  by_cases he : pyStrip u = []
  · simp [he, OccursFrom]
  · have hne : (!(pyStrip u).isEmpty) = true := by
      simp [List.isEmpty_iff, he]
    rw [if_pos hne]
    obtain ⟨p, hp1, hp2⟩ := occursAt_strip u
    exact ⟨p, Nat.zero_le _, hp1, hp2, trivial⟩

theorem splitGo_occurs :
    ∀ (fuel : Nat) (pv : Bool) (acc t : List Char), t.length ≤ fuel →
      OccursFrom (acc.reverse ++ t) 0
        (((splitGo fuel pv acc t).map pyStrip).filter (fun s => !s.isEmpty)) := by
  intro fuel
  induction fuel with
  | zero =>
    intro pv acc t ht
    have h0 : t = [] := List.length_eq_zero.mp (Nat.le_zero.mp ht)
    subst h0
    simp only [splitGo, List.append_nil]
    exact occursFrom_strip_singleton _
  | succ f ih =>
    intro pv acc t ht
    cases t with
    | nil =>
      simp only [splitGo, List.append_nil]
      exact occursFrom_strip_singleton _
    | cons c rest =>
      have hrl : rest.length ≤ f := by
        simp only [List.length_cons] at ht
        omega
      by_cases hb : (pySpace c && pv) = true
      · cases hd : rest.dropWhile pySpace with
        | nil =>
          have hrest : rest = rest.takeWhile pySpace := by
            conv_lhs =>
              rw [← List.takeWhile_append_dropWhile (p := pySpace) (l := rest)]
            rw [hd, List.append_nil]
          simp only [splitGo, hb, if_true, hd]
          rw [← hrest]
          have := occursFrom_strip_singleton (acc.reverse ++ c :: rest)
          simpa using this
        | cons d ds =>
          have hdl : (d :: ds).length ≤ f := by
            have hsplit := congrArg List.length
              (List.takeWhile_append_dropWhile (p := pySpace) (l := rest))
            rw [hd] at hsplit
            simp only [List.length_append, List.length_cons] at hsplit ⊢
            omega
          have hrest2 : rest = rest.takeWhile pySpace ++ d :: ds := by
            conv_lhs =>
              rw [← List.takeWhile_append_dropWhile (p := pySpace) (l := rest)]
            rw [hd]
          by_cases ho : splitOpener d = true
          · simp only [splitGo, hb, if_true, hd, ho]
            have hIH := ih false [] (d :: ds) hdl
            simp only [List.reverse_nil, List.nil_append] at hIH
            have hu : acc.reverse ++ c :: rest =
                (acc.reverse ++ c :: rest.takeWhile pySpace) ++ (d :: ds) := by
              rw [List.append_assoc]
              congr 1
              rw [List.cons_append, ← hrest2]
            have hshift := occursFrom_shift
              (acc.reverse ++ c :: rest.takeWhile pySpace) hIH
            rw [Nat.add_zero] at hshift
            rw [hu]
            simp only [List.map_cons, List.filter_cons]
            by_cases he : pyStrip acc.reverse = []
            · have hne : (!(pyStrip acc.reverse).isEmpty) = false := by
                simp [List.isEmpty_iff, he]
              rw [if_neg (by simp [hne])]
              exact occursFrom_mono (Nat.zero_le _) hshift
            · have hne : (!(pyStrip acc.reverse).isEmpty) = true := by
                simp [List.isEmpty_iff, he]
              rw [if_pos hne]
              obtain ⟨p, hp1, hp2⟩ := occursAt_strip acc.reverse
              have hple : p + (pyStrip acc.reverse).length ≤
                  (acc.reverse ++ c :: rest.takeWhile pySpace).length := by
                simp only [List.length_append]
                omega
              refine ⟨p, Nat.zero_le _, ?_, ?_, ?_⟩
              · simp only [List.length_append]
                omega
              · rw [List.append_assoc]
                rw [extract_append_right _ _ _ _ hp1]
                exact hp2
              · exact occursFrom_mono (by omega) hshift
          · simp only [splitGo, hb, if_true, hd, ho, Bool.false_eq_true, if_false]
            have hIH := ih false ((rest.takeWhile pySpace).reverse ++ c :: acc)
              (d :: ds) hdl
            have hbase :
                ((rest.takeWhile pySpace).reverse ++ c :: acc).reverse ++ (d :: ds) =
                  acc.reverse ++ c :: rest := by
              rw [List.reverse_append, List.reverse_cons, List.reverse_reverse]
              rw [List.append_assoc, List.append_assoc]
              congr 1
              simp only [List.singleton_append, List.cons_append, List.nil_append]
              rw [← hrest2]
            rw [hbase] at hIH
            exact hIH
      · simp only [splitGo, hb, Bool.false_eq_true, if_false]
        have hIH := ih (sentPunct c) (c :: acc) rest hrl
        have hbase : (c :: acc).reverse ++ rest = acc.reverse ++ c :: rest := by
          rw [List.reverse_cons, List.append_assoc, List.singleton_append]
        rw [hbase] at hIH
        exact hIH

theorem sentFragments_occurs (t : List Char) :
    OccursFrom t 0 (sentFragments t) := by
  have := splitGo_occurs t.length false [] t le_rfl
  simpa [sentFragments, sentSplit] using this

theorem segment_occursFrom (text : List Char) :
    OccursFrom text 0 (sentFragments (pyStrip text)) := by
  have h1 := sentFragments_occurs (pyStrip text)
  have h2 := occursFrom_shift (text.takeWhile pySpace) h1
  rw [Nat.add_zero] at h2
  have h3 := occursFrom_append_right
    ((text.dropWhile pySpace).reverse.takeWhile pySpace).reverse h2
  rw [← pyStrip_decomp] at h3
  exact occursFrom_mono (Nat.zero_le _) h3

theorem sentFragments_ne_nil (t : List Char) :
    ∀ s ∈ sentFragments t, s ≠ [] := by
  intro s hs
  have := List.of_mem_filter hs
  simpa [List.isEmpty_iff] using this

theorem strFindAux_found (text s : List Char) :
    ∀ (fuel i p : Nat), i ≤ p → p < i + fuel → p ≤ text.length →
      s.isPrefixOf (text.drop p) = true →
      ∃ j, strFindAux text s fuel i = some j ∧ i ≤ j ∧ j ≤ p ∧
        s.isPrefixOf (text.drop j) = true := by
  intro fuel
  induction fuel with
  | zero =>
    intro i p h1 h2 _ _
    omega
  | succ f ihf =>
    intro i p h1 h2 h3 h4
    simp only [strFindAux]
    rw [if_neg (by omega)]
    by_cases hpre : s.isPrefixOf (text.drop i) = true
    · rw [if_pos hpre]
      exact ⟨i, rfl, le_rfl, h1, hpre⟩
    · rw [if_neg hpre]
      have hip : i ≠ p := by
        rintro rfl
        exact hpre h4
      obtain ⟨j, hj1, hj2, hj3, hj4⟩ := ihf (i + 1) p (by omega) (by omega) h3 h4
      exact ⟨j, hj1, by omega, hj3, hj4⟩

theorem strFind_found (text s : List Char) (cursor p : Nat)
    (h1 : cursor ≤ p) (h3 : p ≤ text.length)
    (h4 : s.isPrefixOf (text.drop p) = true) :
    ∃ j, strFind text s cursor = some j ∧ cursor ≤ j ∧ j ≤ p ∧
      s.isPrefixOf (text.drop j) = true := by
  apply strFindAux_found text s (text.length + 1 - cursor) cursor p h1 (by omega)
    h3 h4

theorem recoverOffsets_sound (text : List Char) :
    ∀ (frags : List (List Char)) (cursor : Nat),
      OccursFrom text cursor frags → (∀ s ∈ frags, s ≠ []) →
      (∀ x ∈ recoverOffsets text frags cursor,
          cursor ≤ x.start ∧ x.stop = x.start + x.text.length ∧
          x.text ≠ [] ∧ x.stop ≤ text.length ∧
          extract text x.start x.stop = x.text) ∧
      (recoverOffsets text frags cursor).Pairwise
        (fun a b => a.stop ≤ b.start ∧ a.start < b.start) := by
  intro frags
  induction frags with
  | nil =>
    intro cursor _ _
    refine ⟨?_, by simp [recoverOffsets]⟩
    intro x hx
    simp [recoverOffsets] at hx
  | cons s rest ihf =>
    intro cursor hocc hne
    obtain ⟨p, hcp, hplen, hpext, htail⟩ := hocc
    have hsne : s ≠ [] := hne s (List.mem_cons_self s rest)
    have hpre : s.isPrefixOf (text.drop p) = true := by
      rw [List.isPrefixOf_iff_prefix, List.prefix_iff_eq_take]
      have h := hpext
      unfold extract at h
      rw [Nat.add_sub_cancel_left] at h
      exact h.symm
    obtain ⟨j, hjeq, hcj, hjp, hjpre⟩ :=
      strFind_found text s cursor p hcp (by omega) hpre
    have hjfull : j + s.length ≤ text.length := by
      rcases isPrefixOf_le_length hjpre with h | h
      · exact h
      · exact absurd h hsne
    have hjext : extract text j (j + s.length) = s :=
      extract_eq_of_isPrefixOf hjpre
    have hslen : 0 < s.length := List.length_pos.mpr hsne
    simp only [recoverOffsets, hjeq]
    have htail' : OccursFrom text (j + s.length) rest :=
      occursFrom_mono (by omega) htail
    have hrec := ihf (j + s.length) htail'
      (fun u hu => hne u (List.mem_cons_of_mem _ hu))
    constructor
    · intro x hx
      rcases List.mem_cons.mp hx with rfl | hx'
      · exact ⟨hcj, rfl, hsne, hjfull, hjext⟩
      · obtain ⟨ha, hrest⟩ := hrec
        obtain ⟨hb1, hb2, hb3, hb4, hb5⟩ := ha x hx'
        exact ⟨by omega, hb2, hb3, hb4, hb5⟩
    · refine List.Pairwise.cons ?_ hrec.2
      intro b hb
      obtain ⟨hb1, -, -, -, -⟩ := hrec.1 b hb
      exact ⟨hb1, show j < b.start by omega⟩

theorem segment_sound (text : List Char) :
    (∀ x ∈ segment text,
        x.start < x.stop ∧ x.stop ≤ text.length ∧
        extract text x.start x.stop = x.text) ∧
      (segment text).Pairwise (fun a b => a.stop ≤ b.start ∧ a.start < b.start) := by
  unfold segment
  by_cases he : (pyStrip text).isEmpty
  · simp [he]
  · rw [if_neg he]
    have hsound := recoverOffsets_sound text (sentFragments (pyStrip text)) 0
      (segment_occursFrom text) (sentFragments_ne_nil _)
    constructor
    · intro x hx
      obtain ⟨-, h2, h3, h4, h5⟩ := hsound.1 x hx
      have hlen : 0 < x.text.length := List.length_pos.mpr h3
      exact ⟨by omega, h4, h5⟩
    · exact hsound.2

/-! ### Claim C4 -/

/-- Claim C4: for every input text (including empty text), every produced
span lies within `[0, len(text)]` (starts are naturals, so `0 ≤ start` is
implicit; `start < stop ≤ len`), and the spans are pairwise
non-overlapping with strictly increasing starts. -/
theorem C4_span_invariants (text : List Char) :
    (∀ x ∈ segment text, x.start < x.stop ∧ x.stop ≤ text.length) ∧
      (segment text).Pairwise
        (fun a b => a.stop ≤ b.start ∧ a.start < b.start) := by
  obtain ⟨h1, h2⟩ := segment_sound text
  exact ⟨fun x hx => ⟨(h1 x hx).1, (h1 x hx).2.1⟩, h2⟩

/-! ### Claim C5 -/

/-- Claim C5: for every input text, every segmented sentence reproduces the
original text at its span: `text[start:stop] == sentence`; in particular
the defensive fallback branch (fragment not found at or after the cursor)
never fires, since the forward search always succeeds. -/
theorem C5_offsets_exact (text : List Char) :
    ∀ x ∈ segment text, extract text x.start x.stop = x.text :=
  fun x hx => ((segment_sound text).1 x hx).2.2

/-- Witness for C5 at a concrete input. -/
theorem C5_offsets_exact_witness :
    extract "Hi. You.".toList 0 3 = "Hi.".toList :=
  C5_offsets_exact "Hi. You.".toList ⟨0, 3, "Hi.".toList⟩ (by decide)

/-! ### Claim C6 -/

theorem pairwise_start_inj :
    ∀ (l : List Sent), l.Pairwise (fun a b => a.stop ≤ b.start ∧ a.start < b.start) →
      ∀ x ∈ l, ∀ y ∈ l, x.start = y.start → x = y := by
  intro l
  induction l with
  | nil =>
    intro _ x hx
    cases hx
  | cons a t ih =>
    intro hp x hx y hy heq
    obtain ⟨hrel, hpt⟩ := List.pairwise_cons.mp hp
    rcases List.mem_cons.mp hx with rfl | hx' <;>
      rcases List.mem_cons.mp hy with rfl | hy'
    · rfl
    · exact absurd heq (by have := (hrel y hy').2; omega)
    · exact absurd heq.symm (by have := (hrel x hx').2; omega)
    · exact ih hpt x hx' y hy' heq

/-- Claim C6: a sentence that matches zero patterns is never emitted — no
record is produced at that sentence's span, every emitted record carries a
non-empty `matched_patterns` — and if zero patterns match any sentence of a
document, the output is empty; all for every threshold, including 0, and
regardless of boosts. -/
theorem C6_no_match_no_emit (text : List Char) (cfg : Cfg) (θ : ℚ) :
    (∀ r ∈ detect_sentences text cfg θ, r.matched_patterns ≠ []) ∧
      (∀ x ∈ segment text, matchedOf cfg x.text = [] →
        ∀ r ∈ detect_sentences text cfg θ,
          ¬(r.start = x.start ∧ r.stop = x.stop ∧ r.sentence = x.text)) ∧
      ((∀ x ∈ segment text, matchedOf cfg x.text = []) →
        detect_sentences text cfg θ = []) := by
  refine ⟨?_, ?_, ?_⟩
  · intro r hr
    rcases (mem_detect_iff text cfg θ r).mp hr with ⟨x, _, hne, _, rfl⟩
    exact hne
  · intro x hx hm r hr hspan
    rcases (mem_detect_iff text cfg θ r).mp hr with ⟨y, hy, hne, _, rfl⟩
    have hstart : y.start = x.start := hspan.1
    have hxy : y = x :=
      pairwise_start_inj (segment text) (segment_sound text).2 y hy x hx hstart
    rw [hxy] at hne
    exact hne hm
  · intro hall
    apply List.filterMap_eq_nil_iff.mpr
    intro x hx
    rw [scoreOne_eq]
    rw [if_neg]
    rintro ⟨hne, -⟩
    exact hne (hall x hx)

/-! ### Claim C7 -/

/-- Claim C7 as stated is false on the code: `line_no` counts only records
that `iter_jsonl` yields — blank input lines are skipped without
incrementing it.  On the input whose first line is blank and whose second
line holds a record, the record's `doc_id` fallback and `meta.jsonl_line`
are both 1, although the record's line is line 2 (1-based) of the input. -/
theorem C7_counterexample :
    processJsonl parseJ cfgA (1/2) "text" "doc_id" "in.jsonl" "in.jsonl" 0
        ["", lineJ] =
      .ok [⟨"in.jsonl#1", 1,
        ⟨0, 19, "I think this works.".toList, 3/5, ["HEDGE"],
          [⟨"p1", "HEDGE"⟩]⟩,
        1/2, "in.jsonl", 1⟩] ∧
      (1 : Nat) ≠ 2 := by
  refine ⟨rfl, by decide⟩

/-- Claim C7 (corrected): in JSONL mode, blank lines are skipped without
advancing the record counter, and for a non-blank line that parses to a
record the contributed output records carry `jsonl_line = N` and
`doc_id = str(id-field)` when the id field is present, else
`doc_id = base#N` — where `N` is the 1-based index of the record among the
parsed (non-blank) lines, not the physical line number. -/
theorem C7_amended (parse : String → Option JObj) (cfg : Cfg) (θ : ℚ)
    (tf idf base source : String) (n : Nat) (line : String)
    (rest : List String) :
    (stripS line = "" →
      processJsonl parse cfg θ tf idf base source n (line :: rest) =
        processJsonl parse cfg θ tf idf base source n rest) ∧
    (∀ obj, stripS line ≠ "" → parse (stripS line) = some obj →
      processJsonl parse cfg θ tf idf base source n (line :: rest) =
        (processJsonl parse cfg θ tf idf base source (n + 1) rest).map
          (fun rs => recordOutput cfg θ tf idf base source (n + 1) obj ++ rs)) ∧
    (∀ lineNo obj r, r ∈ recordOutput cfg θ tf idf base source lineNo obj →
      r.jsonl_line = lineNo ∧
      r.doc_id =
        (match jget obj idf with
         | some v => pyStr v
         | none => base ++ "#" ++ toString lineNo)) := by
  refine ⟨?_, ?_, ?_⟩
  · intro hblank
    simp only [processJsonl, hblank, if_pos]
  · intro obj hne hp
    cases hrec : processJsonl parse cfg θ tf idf base source (n + 1) rest with
    | ok rs =>
      cases hv : (jget obj tf).getD (.jstr "") with
      | jstr s =>
        by_cases hs : stripS s = ""
        · simp [processJsonl, hne, hp, hv, hs, recordOutput, hrec, Except.map]
        · simp [processJsonl, hne, hp, hv, hs, recordOutput, hrec, Except.map]
      | jnull => simp [processJsonl, hne, hp, hv, recordOutput, hrec, Except.map]
      | jbool b => simp [processJsonl, hne, hp, hv, recordOutput, hrec, Except.map]
      | jint m => simp [processJsonl, hne, hp, hv, recordOutput, hrec, Except.map]
      | jarr xs => simp [processJsonl, hne, hp, hv, recordOutput, hrec, Except.map]
      | jobj kvs => simp [processJsonl, hne, hp, hv, recordOutput, hrec, Except.map]
    | error e =>
      cases hv : (jget obj tf).getD (.jstr "") with
      | jstr s =>
        by_cases hs : stripS s = ""
        · simp [processJsonl, hne, hp, hv, hs, recordOutput, hrec, Except.map]
        · simp [processJsonl, hne, hp, hv, hs, recordOutput, hrec, Except.map]
      | jnull => simp [processJsonl, hne, hp, hv, recordOutput, hrec, Except.map]
      | jbool b => simp [processJsonl, hne, hp, hv, recordOutput, hrec, Except.map]
      | jint m => simp [processJsonl, hne, hp, hv, recordOutput, hrec, Except.map]
      | jarr xs => simp [processJsonl, hne, hp, hv, recordOutput, hrec, Except.map]
      | jobj kvs => simp [processJsonl, hne, hp, hv, recordOutput, hrec, Except.map]
  · intro lineNo obj r hr
    cases hv : (jget obj tf).getD (.jstr "") with
    | jstr s =>
      by_cases hs : stripS s = ""
      · simp [recordOutput, hv, hs] at hr
      · simp only [recordOutput, hv, hs, if_neg, not_false_iff] at hr
        simp only [emitDoc, List.mem_map] at hr
        obtain ⟨ir, -, rfl⟩ := hr
        exact ⟨rfl, rfl⟩
    | jnull => simp [recordOutput, hv] at hr
    | jbool b => simp [recordOutput, hv] at hr
    | jint m => simp [recordOutput, hv] at hr
    | jarr xs => simp [recordOutput, hv] at hr
    | jobj kvs => simp [recordOutput, hv] at hr

/-- Witness for the corrected C7 at a concrete input: the blank-line
equation, the parsed-line equation, and the doc_id/jsonl_line rule at the
record `objJ` counted as record 1. -/
theorem C7_amended_witness :
    processJsonl parseJ cfgA (1/2) "text" "doc_id" "in.jsonl" "in.jsonl" 0
        ["", lineJ] =
      processJsonl parseJ cfgA (1/2) "text" "doc_id" "in.jsonl" "in.jsonl" 0
        [lineJ] :=
  (C7_amended parseJ cfgA (1/2) "text" "doc_id" "in.jsonl" "in.jsonl" 0 ""
    [lineJ]).1 rfl

/-! ### Claim C8 -/

/-- Claim C8: a missing patterns file exits with code 2 for every input
(the startup phase runs before the input is read); an unparsable pattern
document, a document without the `patterns` key (or that is not a dict),
and a pattern entry whose `rx` the regex engine rejects all abort before
any input is processed, with the uncaught-exception exit code 1, which is
nonzero and distinct from 2. -/
theorem C8_startup_failures (rxOk : String → Bool) :
    (∀ input process, mainModel none rxOk input process = (.exited 2, none)) ∧
    (∀ input process,
      mainModel (some none) rxOk input process = (.exited 1, none)) ∧
    (∀ v input process, compileOk rxOk v = false →
      mainModel (some (some v)) rxOk input process = (.exited 1, none)) ∧
    (∀ kvs, jget kvs "patterns" = none → compileOk rxOk (.jobj kvs) = false) ∧
    (∀ u, (∀ kvs, u ≠ .jobj kvs) → compileOk rxOk u = false) ∧
    (∀ kvs ps pkvs r, jget kvs "patterns" = some (.jarr ps) →
      JVal.jobj pkvs ∈ ps → jget pkvs "rx" = some (.jstr r) → rxOk r = false →
      compileOk rxOk (.jobj kvs) = false) ∧
    ((1 : Nat) ≠ 0 ∧ (1 : Nat) ≠ 2 ∧ (2 : Nat) ≠ 0) := by
  refine ⟨fun _ _ => rfl, fun _ _ => rfl, ?_, ?_, ?_, ?_, by decide⟩
  · intro v input process h
    simp [mainModel, mainStartup, h]
  · intro kvs h
    simp [compileOk, h]
  · intro u h
    cases u with
    | jobj kvs => exact absurd rfl (h kvs)
    | jnull => rfl
    | jbool b => rfl
    | jint n => rfl
    | jstr s => rfl
    | jarr xs => rfl
  · intro kvs ps pkvs r hget hmem hrx hbad
    simp only [compileOk, hget, jIter]
    have hall : ps.all (patOk rxOk) = false := by
      rw [List.all_eq_false]
      exact ⟨.jobj pkvs, hmem, by simp [patOk, hrx, hbad]⟩
    simp [hall]

/-! ### Claim C10 -/

/-- Claim C10: a JSONL record whose text field is present but not a string
is silently skipped — no output, no error — exactly like a blank or
missing text field, while the line counter (used for the `doc_id` fallback
and `meta.jsonl_line` of subsequent records) is still advanced past it. -/
theorem C10_nonstring_text_skipped (parse : String → Option JObj) (cfg : Cfg)
    (θ : ℚ) (tf idf base source : String) (n : Nat) (line : String)
    (rest : List String) (obj : JObj) (v : JVal)
    (hne : stripS line ≠ "") (hp : parse (stripS line) = some obj)
    (hv : jget obj tf = some v) (hnotstr : ∀ s, v ≠ .jstr s) :
    processJsonl parse cfg θ tf idf base source n (line :: rest) =
      processJsonl parse cfg θ tf idf base source (n + 1) rest := by
  have hgetd : (jget obj tf).getD (.jstr "") = v := by rw [hv]; rfl
  cases v with
  | jstr s => exact absurd rfl (hnotstr s)
  | jnull => simp [processJsonl, hne, hp, hgetd]
  | jbool b => simp [processJsonl, hne, hp, hgetd]
  | jint m => simp [processJsonl, hne, hp, hgetd]
  | jarr xs => simp [processJsonl, hne, hp, hgetd]
  | jobj kvs => simp [processJsonl, hne, hp, hgetd]

/-- Witness for C10: the line `n` parses to a record whose `text` field is
the number 5; processing it equals processing the remaining input with the
counter advanced by one. -/
theorem C10_nonstring_text_skipped_witness :
    processJsonl parseN cfgA (1/2) "text" "doc_id" "b" "b" 0 ["n", lineJ] =
      processJsonl parseN cfgA (1/2) "text" "doc_id" "b" "b" 1 [lineJ] :=
  C10_nonstring_text_skipped parseN cfgA (1/2) "text" "doc_id" "b" "b" 0 "n"
    [lineJ] objN (.jint 5) (by decide) rfl rfl
    (by intro s h; cases h)

end Polis
